import Mathlib

/-!
# Verification of GameOfLifeHPC (OpenMP and CUDA strategies)

Shallow embedding of `gol-openmp.cpp` (class `Life`) and `gol-cuda.cu`
(kernel `cudaRun` and class `Life`).  Cell buffers are `List Nat`;
32-bit unsigned arithmetic of the OpenMP code is made explicit with
`% U32`; the CUDA kernel's `int` arithmetic is embedded through `Int`
(exact, since the values involved stay far below 2^31 under the side
conditions of the theorems).
-/

namespace GoL

/-- The modulus 2^32 of C `unsigned int` arithmetic. -/
def U32 : Nat := 4294967296

/-- Addition `a + b` in 32-bit unsigned arithmetic. -/
def uadd (a b : Nat) : Nat := (a + b) % U32

/-- Multiplication `a * b` in 32-bit unsigned arithmetic. -/
def umul (a b : Nat) : Nat := (a * b) % U32

/-- Read of `l[i]` on a cell buffer (all reads in the embedded code are
in bounds under the theorems' hypotheses; out of range yields 0). -/
def buf_get (l : List Nat) (i : Nat) : Nat := l.getD i 0

/-! ## gol-openmp.cpp : `Life::run` inner loop -/

/-- Wrapped decrement `(v - 1 + m) % m` computed in `unsigned int` arithmetic, as in the
neighbour lookups of `Life::run` (`gol-openmp.cpp` lines 58-65). -/
def om_decWrap (v m : Nat) : Nat := ((((v + (U32 - 1)) % U32) + m) % U32) % m

/-- Wrapped increment `(v + 1) % m` computed in `unsigned int` arithmetic. -/
def om_incWrap (v m : Nat) : Nat := ((v + 1) % U32) % m

/-- The flat write index `(y * height) + x` of `gol-openmp.cpp` line 55
(note: `height`, not `width`). -/
def om_index (height x y : Nat) : Nat := uadd (umul y height) x

/-- The eight-neighbour count of `gol-openmp.cpp` lines 58-65, a
`uint8_t` (hence the final `% 256`). -/
def om_neighbours (cells : List Nat) (height width x y : Nat) : Nat :=
  (buf_get cells (uadd (om_decWrap x width) (umul (om_decWrap y height) width))
   + buf_get cells (uadd x (umul (om_decWrap y height) width))
   + buf_get cells (uadd (om_incWrap x width) (umul (om_decWrap y height) width))
   + buf_get cells (uadd (om_decWrap x width) (umul y width))
   + buf_get cells (uadd (om_incWrap x width) (umul y width))
   + buf_get cells (uadd (om_decWrap x width) (umul (om_incWrap y height) width))
   + buf_get cells (uadd x (umul (om_incWrap y height) width))
   + buf_get cells (uadd (om_incWrap x width) (umul (om_incWrap y height) width))) % 256

/-- The ruleset of `gol-openmp.cpp` lines 68-74: keep on 2 neighbours,
live on 3, die otherwise (`alive = 1`, `dead = 0`). -/
def om_rule (neighbours cellval : Nat) : Nat :=
  if neighbours = 2 then cellval else if neighbours = 3 then 1 else 0

/-- Body of the inner loop of `Life::run` for one `(x, y)`: compute the
neighbour count and store the rule's result into `nextcells` at the
flat index of line 55. -/
def om_writeCell (cells : List Nat) (height width : Nat)
    (nextcells : List Nat) (x y : Nat) : List Nat :=
  let index := om_index height x y
  let neighbours := om_neighbours cells height width x y
  nextcells.set index (om_rule neighbours (buf_get cells index))

/-- One generation of `Life::run` (the doubly nested loop over `y` then
`x`), sequentialised in loop order; the OpenMP work sharing writes the
same cells with the same values, each `(x, y)` writing one index. -/
def om_step (cells nextcells : List Nat) (height width : Nat) : List Nat :=
  (List.range height).foldl
    (fun nx y =>
      (List.range width).foldl (fun nx2 x => om_writeCell cells height width nx2 x y) nx)
    nextcells

/-- The turn loop of `Life::run`: step into `nextcells`, then
`cells.swap(nextcells)`.  State is `(cells, nextcells)`. -/
def om_runTurns (height width : Nat) : Nat → List Nat × List Nat → List Nat × List Nat
  | 0, s => s
  | t + 1, s => om_runTurns height width t (om_step s.1 s.2 height width, s.1)

/-- A whole OpenMP simulation from a given initial grid: `nextcells` is
zero-initialised by `resize`, then `run(turns)`; result is the final
`cells` buffer. -/
def om_run (height width turns : Nat) (init : List Nat) : List Nat :=
  (om_runTurns height width turns (init, List.replicate (height * width) 0)).1

/-! ## `Life::init_random`

Both programs fill `cells` with
`std::generate(cells.begin(), cells.end(), std::bind(distribution, engine))`
where `engine` is a default-constructed `std::mt19937` (seed 5489, as
fixed by the C++ standard) and `distribution` is
`std::uniform_int_distribution<int>(0, 1)` (embedded following the GNU
libstdc++ downscaling: draw `g`, reject `g ≥ 4294967294`, return
`g / 2147483647`; the rejection loop is fuel-bounded here, returning 0
on exhaustion, a branch never taken on the actual mt19937 stream used
by the witnesses). -/

/-- Word `i` of the mt19937 seeding recurrence
`mt[i] = 1812433253 * (mt[i-1] ^ (mt[i-1] >> 30)) + i (mod 2^32)`,
from `mt[0] = 5489`. -/
def mtSeed : Nat → Nat
  | 0 => 5489
  | i + 1 =>
    let p := mtSeed i
    (1812433253 * (p ^^^ (p >>> 30)) + (i + 1)) % U32

/-- The freshly seeded 624-word mt19937 state. -/
def mtInitState : List Nat := (List.range 624).map mtSeed

/-- One in-place update of the mt19937 twist at position `i`. -/
def mtTwistStep (mt : List Nat) (i : Nat) : List Nat :=
  let x := (buf_get mt i &&& 2147483648) + (buf_get mt ((i + 1) % 624) &&& 2147483647)
  let xA := x >>> 1
  let xA := if x % 2 = 1 then xA ^^^ 2567483615 else xA
  mt.set i ((buf_get mt ((i + 397) % 624)) ^^^ xA)

/-- A full mt19937 twist (in place, sequential over `i = 0..623`). -/
def mtTwist (mt : List Nat) : List Nat := (List.range 624).foldl mtTwistStep mt

/-- mt19937 output tempering. -/
def mtTemper (v : Nat) : Nat :=
  let y := v ^^^ (v >>> 11)
  let y := y ^^^ ((y <<< 7) &&& 2636928640)
  let y := y ^^^ ((y <<< 15) &&& 4022730752)
  y ^^^ (y >>> 18)

/-- The `k`-th raw output of a default-seeded `std::mt19937`. -/
def mtOut (k : Nat) : Nat :=
  mtTemper (buf_get (mtTwist^[k / 624 + 1] mtInitState) (k % 624))

/-- One draw of `std::uniform_int_distribution<int>(0,1)` starting at
raw-output position `k` (libstdc++ downscaling with `scaling =
2147483647`, rejection of draws `≥ 4294967294`), fuel-bounded; returns
the drawn bit and the next raw-output position. -/
def dist01Draw : Nat → Nat → Nat × Nat
  | 0, k => (0, k)
  | fuel + 1, k =>
    let g := mtOut k
    if g < 4294967294 then (g / 2147483647, k + 1) else dist01Draw fuel (k + 1)

/-- Model of `Life::init_random` for a grid of `n` cells: `n` successive draws
of the bound distribution, in buffer order. -/
def initRandom (n : Nat) : List Nat :=
  ((List.range n).foldl
    (fun (s : List Nat × Nat) _ =>
      let d := dist01Draw 100 s.2
      (s.1 ++ [d.1], d.2))
    ([], 0)).1

/-! ## gol-cuda.cu : kernel `cudaRun` and `Life::run` -/

/-- Wrapped decrement `(v - 1 + m) % m` in (mathematical) `int` arithmetic, as in the
neighbour lookups of kernel `cudaRun` (`gol-cuda.cu` lines 52-59). -/
def cu_decWrap (v m : Nat) : Nat := (((v : Int) - 1 + m) % m).toNat

/-- Wrapped increment `(v + 1) % m` in `int` arithmetic. -/
def cu_incWrap (v m : Nat) : Nat := (((v : Int) + 1) % m).toNat

/-- The eight-neighbour count of `cudaRun` at flat index `i`, with
`x = i % w`, `y = i / w` (`gol-cuda.cu` lines 47-59); an `int` sum. -/
def cu_neighbours (w h : Nat) (current : List Nat) (i : Nat) : Nat :=
  let x := i % w
  let y := i / w
  buf_get current (cu_decWrap x w + cu_decWrap y h * w)
  + buf_get current (x + cu_decWrap y h * w)
  + buf_get current (cu_incWrap x w + cu_decWrap y h * w)
  + buf_get current (cu_decWrap x w + y * w)
  + buf_get current (cu_incWrap x w + y * w)
  + buf_get current (cu_decWrap x w + cu_incWrap y h * w)
  + buf_get current (x + cu_incWrap y h * w)
  + buf_get current (cu_incWrap x w + cu_incWrap y h * w)

/-- The ruleset of `cudaRun` lines 62-68. -/
def cu_rule (neighbours cellval : Nat) : Nat :=
  if neighbours = 2 then cellval else if neighbours = 3 then 1 else 0

/-- The value `cudaRun` stores into `next[i]`. -/
def cu_cell (w h : Nat) (current : List Nat) (i : Nat) : Nat :=
  cu_rule (cu_neighbours w h current i) (buf_get current i)

/-- The kernel `cudaRun` over the whole grid: the grid-stride loops of
all launched threads jointly visit every `i < n` exactly once, each
writing only `next[i]`; sequentialised over `i`. -/
def cudaRunKernel (n w h : Nat) (current next : List Nat) : List Nat :=
  (List.range n).foldl (fun nx i => nx.set i (cu_cell w h current i)) next

/-- One generation computed functionally: `next[i] = cu_cell i` for
every `i < h*w`. -/
def cu_step (w h : Nat) (current : List Nat) : List Nat :=
  (List.range (h * w)).map (cu_cell w h current)

/-- State of the CUDA `Life` object: host buffer `cells` and the two
device buffers. -/
structure CudaState where
  cells : List Nat
  cellsDevice : List Nat
  nextcellsDevice : List Nat
  deriving DecidableEq

/-- One iteration of the loop in the CUDA `Life::run` (lines 112-129):
launch `cudaRun`, synchronise, swap the device pointers, then copy the
(new) current device buffer back to the host `cells` — the copy happens
inside the loop, every generation. -/
def cu_runTurn (w h : Nat) (s : CudaState) : CudaState :=
  let next := cudaRunKernel (h * w) w h s.cellsDevice s.nextcellsDevice
  { cells := next, cellsDevice := next, nextcellsDevice := s.cellsDevice }

/-- The turn loop of the CUDA `Life::run`. -/
def cu_runTurns (w h : Nat) : Nat → CudaState → CudaState
  | 0, s => s
  | t + 1, s => cu_runTurns w h t (cu_runTurn w h s)

/-- The CUDA `Life` constructor state: host `cells` initialised, both
device buffers allocated (`nextcellsDevice` scratch, fully overwritten
by the kernel before any read), and `cells` copied host-to-device. -/
def cu_initState (h w : Nat) (init : List Nat) : CudaState :=
  { cells := init, cellsDevice := init, nextcellsDevice := List.replicate (h * w) 0 }

/-- A whole CUDA simulation from a given initial grid: the host `cells`
buffer after `run(turns)`. -/
def cu_run (h w turns : Nat) (init : List Nat) : List Nat :=
  (cu_runTurns w h turns (cu_initState h w init)).cells

/-- One generation per the `cu_step` function, iterated (the pure
mathematical evolution the device buffers follow). -/
def cu_iter (w h : Nat) : Nat → List Nat → List Nat
  | 0, c => c
  | t + 1, c => cu_iter w h t (cu_step w h c)

/-- The value the OpenMP inner loop stores for `(x, y)`. -/
def om_val (cells : List Nat) (height width x y : Nat) : Nat :=
  om_rule (om_neighbours cells height width x y) (buf_get cells (om_index height x y))

/-- The state `(cells, nextcells)` after the update loops of one turn of
the OpenMP `Life::run`, before the `cells.swap(nextcells)`: only
`nextcells` has been assigned. -/
def om_generationState (height width : Nat) (s : List Nat × List Nat) : List Nat × List Nat :=
  (s.1, om_step s.1 s.2 height width)

/-- The state `(current, next)` after one `cudaRun` kernel launch plus
synchronisation, before the device-pointer swap: only `next` has been
assigned. -/
def cu_generationState (w h : Nat) (s : List Nat × List Nat) : List Nat × List Nat :=
  (s.1, cudaRunKernel (s.1).length w h s.1 s.2)

/-- All cell values of a buffer are bits (0 or 1). -/
def allBits (l : List Nat) : Prop := ∀ v ∈ l, v ≤ 1

/-- Apply a list of `(index, value)` writes to a buffer, in order. -/
def setAll (l : List Nat) (ws : List (Nat × Nat)) : List Nat :=
  ws.foldl (fun nx p => nx.set p.1 p.2) l

/-- The characters `operator<<` emits for one `(unsigned)` cell value. -/
def digitChars (v : Nat) : List Char := (toString v).data

/-- The lines of `Life::output_file` (one line of `width` cell digits
per row `y`, `cells[y*width + x]` printed left to right), as character
lists. -/
def output_lines (cells : List Nat) (height width : Nat) : List (List Char) :=
  (List.range height).map
    (fun y => ((List.range width).map (fun x => digitChars (buf_get cells (y * width + x)))).flatten)

/-! ## `main` of both programs (argument handling) -/

/-- The usage string printed by both `main`s. -/
def usageMessage : String := "Usage: ./gol-cuda <height> <width> <turns>"

/-- Longest prefix of decimal digit values. -/
def takeDigits : List Char → List Nat
  | [] => []
  | c :: cs => if 48 ≤ c.toNat ∧ c.toNat ≤ 57 then (c.toNat - 48) :: takeDigits cs else []

/-- Value of a decimal digit string. -/
def digitsVal (ds : List Nat) : Nat := ds.foldl (fun a d => a * 10 + d) 0

/-- Model of `std::stoi` on a CLI argument: skip leading spaces, parse
an optional sign and a longest non-empty digit prefix (trailing
characters ignored); `none` when `std::stoi` throws —
`std::invalid_argument` when no digits are found, and
`std::out_of_range` when the parsed value does not fit in `int`
(outside [-2147483648, 2147483647]). -/
def stoi (s : String) : Option Int :=
  match s.data.dropWhile (fun c => c = ' ') with
  | [] => none
  | c :: cs =>
    let signed : Int × List Char :=
      if c = '-' then (-1, cs) else if c = '+' then (1, cs) else (1, c :: cs)
    let ds := takeDigits signed.2
    if ds.isEmpty then none
    else
      let v := signed.1 * digitsVal ds
      if v < -2147483648 ∨ 2147483647 < v then none else some v

/-- Observable outcome of a process run: whether the usage message was
printed, the exit status (`none` for abnormal termination by an
uncaught exception), and whether the simulation was run. -/
structure ProcResult where
  usagePrinted : Bool
  exitStatus : Option Nat
  ranSimulation : Bool
  deriving DecidableEq

/-- The argument handling of both `main`s (`gol-openmp.cpp` lines
184-212, `gol-cuda.cu` lines 208-236): with exactly 4 `argv` entries
the three arguments are parsed with `std::stoi` and the simulation
runs to the final `return 0`; otherwise the usage message is printed
and `main` returns 1. -/
def gol_main (args : List String) : ProcResult :=
  if args.length = 4 then
    match stoi (args.getD 1 ""), stoi (args.getD 2 ""), stoi (args.getD 3 "") with
    | some _, some _, some _ =>
      { usagePrinted := false, exitStatus := some 0, ranSimulation := true }
    | _, _, _ => { usagePrinted := false, exitStatus := none, ranSimulation := false }
  else { usagePrinted := true, exitStatus := some 1, ranSimulation := false }

/-! ## Generic buffer-write lemmas -/

theorem foldl_preserves {α β : Type} (P : β → Prop) (f : β → α → β)
    (hf : ∀ b a, P b → P (f b a)) :
    ∀ (ws : List α) (b : β), P b → P (ws.foldl f b)
  | [], _, h => h
  | a :: ws, b, h => foldl_preserves P f hf ws (f b a) (hf b a h)

theorem setAll_length (ws : List (Nat × Nat)) (l : List Nat) :
    (setAll l ws).length = l.length := by
  induction ws generalizing l with
  | nil => rfl
  | cons p ws ih =>
    simp only [setAll, List.foldl_cons] at *
    rw [ih (l.set p.1 p.2), List.length_set]

theorem setAll_append (l : List Nat) (a b : List (Nat × Nat)) :
    setAll l (a ++ b) = setAll (setAll l a) b :=
  List.foldl_append ..

theorem buf_get_eq_getElem (l : List Nat) (i : Nat) (h : i < l.length) :
    buf_get l i = l[i] := by
  simp [buf_get, List.getD_eq_getElem?_getD, List.getElem?_eq_getElem h]

theorem allBits_buf_get {l : List Nat} (h : allBits l) (i : Nat) : buf_get l i ≤ 1 := by
  by_cases hi : i < l.length
  · rw [buf_get_eq_getElem l i hi]
    exact h _ (List.getElem_mem hi)
  · simp [buf_get, List.getD_eq_getElem?_getD, List.getElem?_eq_none (Nat.le_of_not_lt hi)]

theorem setAll_range_offset (f : Nat → Nat) (l : List Nat) (off n : Nat)
    (h : off + n ≤ l.length) :
    setAll l ((List.range n).map (fun i => (off + i, f i))) =
      l.take off ++ (List.range n).map f ++ l.drop (off + n) := by
  induction n with
  | zero => simp [setAll]
  | succ n ih =>
    rw [List.range_succ, List.map_append, setAll_append, ih (by omega)]
    have hlen1 : (l.take off ++ (List.range n).map f).length = off + n := by
      simp only [List.length_append, List.length_take, List.length_map, List.length_range]
      omega
    simp only [List.map_cons, List.map_nil, setAll, List.foldl_cons, List.foldl_nil]
    rw [List.set_append, if_neg (by omega), hlen1]
    rw [List.drop_eq_getElem_cons (show off + n < l.length by omega)]
    simp only [Nat.sub_self, List.set_cons_zero]
    simp [List.map_append, List.append_assoc, Nat.add_assoc]

theorem setAll_range_full (f : Nat → Nat) (l : List Nat) (n : Nat) (h : l.length = n) :
    setAll l ((List.range n).map (fun i => (i, f i))) = (List.range n).map f := by
  have h0 := setAll_range_offset f l 0 n (by omega)
  simp only [Nat.zero_add, List.take_zero, List.nil_append] at h0
  rw [h0, List.drop_eq_nil_of_le (by omega), List.append_nil]

theorem cudaRunKernel_eq_map (n w h : Nat) (cur next : List Nat) (hn : next.length = n) :
    cudaRunKernel n w h cur next = (List.range n).map (cu_cell w h cur) := by
  have h1 : cudaRunKernel n w h cur next
      = setAll next ((List.range n).map (fun i => (i, cu_cell w h cur i))) := by
    rw [setAll, List.foldl_map]; rfl
  rw [h1, setAll_range_full _ _ _ hn]

theorem cu_step_length (w h : Nat) (cur : List Nat) : (cu_step w h cur).length = h * w := by
  simp [cu_step]

/-! ## Index-arithmetic lemmas -/

theorem om_decWrap_eq (v m : Nat) (hv : v < m) (hm : 2 * m ≤ U32) :
    om_decWrap v m = (v + m - 1) % m := by
  have h1 : (((v + (U32 - 1)) % U32) + m) % U32 = v + m - 1 := by
    unfold U32 at *
    omega
  unfold om_decWrap
  rw [h1]

theorem om_incWrap_eq (v m : Nat) (hv : v < m) (hm : 2 * m ≤ U32) :
    om_incWrap v m = (v + 1) % m := by
  have h1 : (v + 1) % U32 = v + 1 := by
    unfold U32 at *
    omega
  unfold om_incWrap
  rw [h1]

theorem cu_decWrap_eq (v m : Nat) (hm : 1 ≤ m) :
    cu_decWrap v m = (v + m - 1) % m := by
  unfold cu_decWrap
  have h1 : (v : Int) - 1 + m = ((v + m - 1 : Nat) : Int) := by
    rw [Nat.cast_sub (by omega)]
    push_cast
    ring
  rw [h1, ← Int.natCast_mod, Int.toNat_natCast]

theorem cu_incWrap_eq (v m : Nat) : cu_incWrap v m = (v + 1) % m := by
  unfold cu_incWrap
  have h1 : (v : Int) + 1 = ((v + 1 : Nat) : Int) := by push_cast; ring
  rw [h1, ← Int.natCast_mod, Int.toNat_natCast]

theorem uidx_eq (P Q w h : Nat) (hP : P < w) (hQ : Q < h) (hU : h * w < U32) :
    uadd P (umul Q w) = P + Q * w := by
  have h1 : Q * w + w ≤ h * w := by
    have h2 : (Q + 1) * w ≤ h * w := Nat.mul_le_mul_right w (by omega)
    have h3 : (Q + 1) * w = Q * w + w := by ring
    omega
  have h3 : Q * w < U32 := by omega
  have h4 : P + Q * w < U32 := by omega
  unfold uadd umul
  rw [Nat.mod_eq_of_lt h3, Nat.mod_eq_of_lt h4]

theorem om_index_eq (height x y : Nat) (hb : y * height + x < U32) :
    om_index height x y = y * height + x := by
  unfold om_index uadd umul
  have h1 : y * height % U32 = y * height := Nat.mod_eq_of_lt (by omega)
  rw [h1, Nat.mod_eq_of_lt hb]

/-- On any H×W grid (dimensions small enough that the 32-bit unsigned
index arithmetic of the OpenMP code does not wrap), the OpenMP and the
CUDA neighbour counts of cell (x, y) agree, provided the cell values
are bits (so the `uint8_t` accumulation of the OpenMP code cannot
truncate). -/
theorem neighbours_eq (cells : List Nat) (h w x y : Nat) (hb : allBits cells)
    (hx : x < w) (hy : y < h) (hU : h * w < U32) (h2w : 2 * w ≤ U32) (h2h : 2 * h ≤ U32) :
    om_neighbours cells h w x y = cu_neighbours w h cells (y * w + x) := by
  have hw1 : 1 ≤ w := by omega
  have hh1 : 1 ≤ h := by omega
  have hxw : (y * w + x) % w = x := by
    rw [Nat.mul_comm y w, Nat.mul_add_mod, Nat.mod_eq_of_lt hx]
  have hyw : (y * w + x) / w = y := by
    rw [Nat.mul_comm y w, Nat.mul_add_div hw1, Nat.div_eq_of_lt hx, Nat.add_zero]
  have hdx : (x + w - 1) % w < w := Nat.mod_lt _ hw1
  have hdy : (y + h - 1) % h < h := Nat.mod_lt _ hh1
  have hix : (x + 1) % w < w := Nat.mod_lt _ hw1
  have hiy : (y + 1) % h < h := Nat.mod_lt _ hh1
  have e1 := om_decWrap_eq x w hx h2w
  have e2 := om_decWrap_eq y h hy h2h
  have e3 := om_incWrap_eq x w hx h2w
  have e4 := om_incWrap_eq y h hy h2h
  have f1 := cu_decWrap_eq x w hw1
  have f2 := cu_decWrap_eq y h hh1
  have f3 := cu_incWrap_eq x w
  have f4 := cu_incWrap_eq y h
  have hsum :
      buf_get cells ((x + w - 1) % w + ((y + h - 1) % h) * w)
      + buf_get cells (x + ((y + h - 1) % h) * w)
      + buf_get cells ((x + 1) % w + ((y + h - 1) % h) * w)
      + buf_get cells ((x + w - 1) % w + y * w)
      + buf_get cells ((x + 1) % w + y * w)
      + buf_get cells ((x + w - 1) % w + ((y + 1) % h) * w)
      + buf_get cells (x + ((y + 1) % h) * w)
      + buf_get cells ((x + 1) % w + ((y + 1) % h) * w) ≤ 8 := by
    have b1 := allBits_buf_get hb ((x + w - 1) % w + ((y + h - 1) % h) * w)
    have b2 := allBits_buf_get hb (x + ((y + h - 1) % h) * w)
    have b3 := allBits_buf_get hb ((x + 1) % w + ((y + h - 1) % h) * w)
    have b4 := allBits_buf_get hb ((x + w - 1) % w + y * w)
    have b5 := allBits_buf_get hb ((x + 1) % w + y * w)
    have b6 := allBits_buf_get hb ((x + w - 1) % w + ((y + 1) % h) * w)
    have b7 := allBits_buf_get hb (x + ((y + 1) % h) * w)
    have b8 := allBits_buf_get hb ((x + 1) % w + ((y + 1) % h) * w)
    omega
  unfold om_neighbours
  rw [e1, e2, e3, e4]
  rw [uidx_eq _ _ _ _ hdx hdy hU, uidx_eq _ _ _ _ hx hdy hU, uidx_eq _ _ _ _ hix hdy hU,
      uidx_eq _ _ _ _ hdx hy hU, uidx_eq _ _ _ _ hix hy hU,
      uidx_eq _ _ _ _ hdx hiy hU, uidx_eq _ _ _ _ hx hiy hU, uidx_eq _ _ _ _ hix hiy hU]
  rw [Nat.mod_eq_of_lt (by omega)]
  simp only [cu_neighbours, hxw, hyw]
  rw [f1, f2, f3, f4]

/-- On a square grid (the write-index slip `y * height + x` coincides
with the row-major index), the value the OpenMP loop stores for (x, y)
equals the value the CUDA kernel stores at the flat index `y*h + x`. -/
theorem om_val_eq_cu_cell (cells : List Nat) (h x y : Nat) (hb : allBits cells)
    (hx : x < h) (hy : y < h) (hU : h * h < U32) :
    om_val cells h h x y = cu_cell h h cells (y * h + x) := by
  have h2h : 2 * h ≤ U32 := by
    rcases Nat.lt_or_ge h 2 with h1 | h2
    · unfold U32
      omega
    · have h3 : 2 * h ≤ h * h := Nat.mul_le_mul_right h h2
      omega
  have hbound : y * h + x < h * h := by
    have h4 : (y + 1) * h ≤ h * h := Nat.mul_le_mul_right h (by omega)
    have h5 : (y + 1) * h = y * h + h := by ring
    omega
  unfold om_val cu_cell
  rw [neighbours_eq cells h h x y hb hx hy hU h2h h2h]
  rw [om_index_eq h x y (by omega)]
  rfl

theorem om_row_setAll (cells : List Nat) (h w y : Nat) (nx : List Nat) :
    (List.range w).foldl (fun nx2 x => om_writeCell cells h w nx2 x y) nx
      = setAll nx ((List.range w).map (fun x => (om_index h x y, om_val cells h w x y))) := by
  rw [setAll, List.foldl_map]
  rfl

/-- On a square grid whose scratch buffer has the full length, one
OpenMP generation writes every flat index `i < h*h` exactly once, with
the value of cell `(i % h, i / h)`. -/
theorem om_step_square (cells next : List Nat) (h : Nat)
    (hn : next.length = h * h) (hU : h * h < U32) :
    om_step cells next h h
      = (List.range (h * h)).map (fun i => om_val cells h h (i % h) (i / h)) := by
  suffices H : ∀ k, k ≤ h →
      (List.range k).foldl
        (fun nx y => (List.range h).foldl (fun nx2 x => om_writeCell cells h h nx2 x y) nx)
        next
      = (List.range (k * h)).map (fun i => om_val cells h h (i % h) (i / h))
          ++ next.drop (k * h) by
    have hH := H h (Nat.le_refl h)
    unfold om_step
    rw [hH, List.drop_eq_nil_of_le (by omega), List.append_nil]
  intro k
  induction k with
  | zero =>
    intro _
    simp
  | succ k ih =>
    intro hk
    have hkh : k < h := by omega
    have hk1h : k * h + h ≤ h * h := by
      have h4 : (k + 1) * h ≤ h * h := Nat.mul_le_mul_right h hk
      have h5 : (k + 1) * h = k * h + h := by ring
      omega
    rw [List.range_succ, List.foldl_append, ih (by omega)]
    simp only [List.foldl_cons, List.foldl_nil]
    rw [om_row_setAll]
    have hrow : (List.range h).map (fun x => (om_index h x k, om_val cells h h x k))
        = (List.range h).map
            (fun x => (k * h + x,
              (fun i => om_val cells h h (i % h) (i / h)) (k * h + x))) := by
      apply List.map_congr_left
      intro x hxmem
      have hx : x < h := List.mem_range.mp hxmem
      have hmod : (k * h + x) % h = x := by
        rw [Nat.mul_comm k h, Nat.mul_add_mod, Nat.mod_eq_of_lt hx]
      have hdiv : (k * h + x) / h = k := by
        rw [Nat.mul_comm k h, Nat.mul_add_div (by omega), Nat.div_eq_of_lt hx, Nat.add_zero]
      rw [om_index_eq h x k (by omega)]
      simp only [hmod, hdiv]
    rw [hrow]
    have hlen1 : ((List.range (k * h)).map (fun i => om_val cells h h (i % h) (i / h))).length
        = k * h := by
      simp
    have hLlen : ((List.range (k * h)).map (fun i => om_val cells h h (i % h) (i / h))
        ++ next.drop (k * h)).length = h * h := by
      simp only [List.length_append, List.length_map, List.length_range, List.length_drop, hn]
      omega
    rw [setAll_range_offset _ _ _ _ (by omega)]
    rw [List.take_left' hlen1]
    rw [← List.drop_drop h (k * h)]
    rw [List.drop_left' hlen1]
    rw [List.drop_drop]
    have hfin : (List.range (k * h)).map (fun i => om_val cells h h (i % h) (i / h))
          ++ (List.range h).map (fun x => om_val cells h h ((k * h + x) % h) ((k * h + x) / h))
        = (List.range ((k + 1) * h)).map (fun i => om_val cells h h (i % h) (i / h)) := by
      have hr : (k + 1) * h = k * h + h := by ring
      rw [hr, List.range_add, List.map_append, List.map_map]
      rfl
    have hr2 : (k + 1) * h = k * h + h := by ring
    rw [hr2] at hfin
    rw [hr2]
    congr 1

theorem om_rule_le_one (n c : Nat) (hc : c ≤ 1) : om_rule n c ≤ 1 := by
  unfold om_rule
  split_ifs <;> omega

theorem cu_cell_le_one (w h : Nat) (cells : List Nat) (i : Nat) (hb : allBits cells) :
    cu_cell w h cells i ≤ 1 := by
  have hg := allBits_buf_get hb i
  unfold cu_cell cu_rule
  split_ifs <;> omega

theorem cu_step_allBits (w h : Nat) (cells : List Nat) (hb : allBits cells) :
    allBits (cu_step w h cells) := by
  intro v hv
  rw [cu_step] at hv
  obtain ⟨i, _, rfl⟩ := List.mem_map.mp hv
  exact cu_cell_le_one w h cells i hb

/-- On a square grid one OpenMP generation computes exactly the CUDA
kernel's next buffer. -/
theorem om_step_eq_cu_step (h : Nat) (cur next : List Nat) (h1 : 1 ≤ h) (hU : h * h < U32)
    (hn : next.length = h * h) (hb : allBits cur) :
    om_step cur next h h = cu_step h h cur := by
  rw [om_step_square cur next h hn hU]
  unfold cu_step
  apply List.map_congr_left
  intro i hmem
  have hilt : i < h * h := List.mem_range.mp hmem
  have hx : i % h < h := Nat.mod_lt _ (by omega)
  have hy : i / h < h := by
    rw [Nat.div_lt_iff_lt_mul (by omega)]
    exact hilt
  have hrec : i / h * h + i % h = i := by
    have h6 := Nat.div_add_mod i h
    have h7 : h * (i / h) = i / h * h := Nat.mul_comm h (i / h)
    omega
  have hv := om_val_eq_cu_cell cur h (i % h) (i / h) hb hx hy hU
  rw [hv, hrec]

theorem om_runTurns_sq (h : Nat) (h1 : 1 ≤ h) (hU : h * h < U32) :
    ∀ (t : Nat) (c n : List Nat), allBits c → c.length = h * h → n.length = h * h →
      (om_runTurns h h t (c, n)).1 = cu_iter h h t c := by
  intro t
  induction t with
  | zero =>
    intro c n _ _ _
    rfl
  | succ t ih =>
    intro c n hb hc hnl
    have hstep : om_step c n h h = cu_step h h c := om_step_eq_cu_step h c n h1 hU hnl hb
    show (om_runTurns h h t (om_step c n h h, c)).1 = cu_iter h h t (cu_step h h c)
    rw [hstep]
    exact ih (cu_step h h c) c (cu_step_allBits h h c hb) (cu_step_length h h c) hc

/-- Claim C7: on a 3×3 grid whose only live cell is (0,0), the
eight-neighbour toroidal live count at cell (2,2) equals 1 in both the
OpenMP and the CUDA neighbour-counting code. -/
theorem c7_toroidal_wraparound :
    om_neighbours [1, 0, 0, 0, 0, 0, 0, 0, 0] 3 3 2 2 = 1 ∧
    cu_neighbours 3 3 [1, 0, 0, 0, 0, 0, 0, 0, 0] 8 = 1 :=
  ⟨by decide, by decide⟩

/-- Claim C2 fails on the OpenMP code: on an H=3, W=4 grid, the cell
(x,y) = (0,1) is written to flat index `(y * height) + x = 3`
(`gol-openmp.cpp` line 55), not to the row-major index
`y * W + x = 4` the claim states. -/
theorem c2_write_index_not_rowmajor :
    om_index 3 0 1 = 3 ∧ 1 * 4 + 0 = 4 ∧ om_index 3 0 1 ≠ 1 * 4 + 0 := by
  decide

/-- Claim C3 fails on the OpenMP code: with H=3, W=2 the write index of
cell (x,y) = (1,2) is `(y * height) + x = 7 ≥ H*W = 6` (an
out-of-bounds write), and no cell of the step ever writes index 2, so
not every index of `next` is written. -/
theorem c3_write_unsafe :
    om_index 3 1 2 = 7 ∧ ¬ om_index 3 1 2 < 3 * 2 ∧
    (∀ y, y < 3 → ∀ x, x < 2 → om_index 3 x y ≠ 2) := by
  decide

/-- Claim C4: in both strategies the next-state rule returns `s` on 2
live neighbours, 1 on 3, and 0 otherwise, and the two rules agree
pointwise on s ∈ {0,1}, n ∈ [0,8]. -/
theorem c4_rule_correct (s n : Nat) (_hs : s ≤ 1) (_hn : n ≤ 8) :
    (n = 2 → om_rule n s = s ∧ cu_rule n s = s) ∧
    (n = 3 → om_rule n s = 1 ∧ cu_rule n s = 1) ∧
    (n ≠ 2 → n ≠ 3 → om_rule n s = 0 ∧ cu_rule n s = 0) ∧
    om_rule n s = cu_rule n s := by
  unfold om_rule cu_rule
  refine ⟨fun h2 => ?_, fun h3 => ?_, fun h2 h3 => ?_, rfl⟩ <;> simp [*]

/-- Witness for `c4_rule_correct` at (s, n) = (1, 3). -/
theorem c4_rule_correct_witness : om_rule 3 1 = 1 ∧ cu_rule 3 1 = 1 :=
  (c4_rule_correct 1 3 (by decide) (by decide)).2.1 rfl

/-- Claim C5 fails on the CUDA code: the loop of `Life::run` copies the
device grid back to the host every generation (`gol-cuda.cu` line
124).  After generation 0 of a 2-turn run on a 3×3 grid with single
live cell (0,0), the host `cells` buffer no longer holds the initial
grid. -/
theorem c5_copy_not_deferred :
    (cu_runTurns 3 3 1 (cu_initState 3 3 [1, 0, 0, 0, 0, 0, 0, 0, 0])).cells ≠
      [1, 0, 0, 0, 0, 0, 0, 0, 0] := by
  decide

/-- Specification of one CUDA turn when the device buffers have the
right length: kernel output becomes both the new host grid and the new
current device buffer; the old current buffer becomes scratch. -/
theorem cu_runTurn_spec (w h : Nat) (s : CudaState)
    (h2 : s.nextcellsDevice.length = h * w) :
    cu_runTurn w h s = { cells := cu_step w h s.cellsDevice,
                         cellsDevice := cu_step w h s.cellsDevice,
                         nextcellsDevice := s.cellsDevice } := by
  unfold cu_runTurn
  rw [cudaRunKernel_eq_map _ _ _ _ _ h2]
  rfl

theorem cu_runTurns_cells (w h : Nat) (t : Nat) :
    ∀ (s : CudaState), s.cellsDevice.length = h * w → s.nextcellsDevice.length = h * w →
    (cu_runTurns w h (t + 1) s).cells = cu_iter w h (t + 1) s.cellsDevice := by
  induction t with
  | zero =>
    intro s h1 h2
    rw [show cu_runTurns w h 1 s = cu_runTurn w h s from rfl, cu_runTurn_spec w h s h2]
    rfl
  | succ t ih =>
    intro s h1 h2
    rw [show cu_runTurns w h (t + 2) s = cu_runTurns w h (t + 1) (cu_runTurn w h s) from rfl]
    rw [cu_runTurn_spec w h s h2]
    rw [ih _ (cu_step_length w h _) h1]
    rfl

theorem cu_run_eq_iter (h w turns : Nat) (init : List Nat) (hlen : init.length = h * w) :
    cu_run h w turns init = cu_iter w h turns init := by
  cases turns with
  | zero => rfl
  | succ u => exact cu_runTurns_cells w h u _ hlen (by simp [cu_initState])

/-- Claim C5 amended: the device-to-host copy happens every generation,
not only after the last one; immediately after generation `t` of a run
of `turns` generations the host buffer holds the grid evolved `t + 1`
steps (so in particular the final output is still the grid after
`turns` steps). -/
theorem c5_amended_copy_every_generation (w h turns t : Nat) (init : List Nat)
    (hlen : init.length = h * w) (ht : t < turns) :
    (cu_runTurns w h (t + 1) (cu_initState h w init)).cells = cu_iter w h (t + 1) init ∧
    cu_run h w turns init = cu_iter w h turns init := by
  constructor
  · exact cu_runTurns_cells w h t _ hlen (by simp [cu_initState])
  · cases turns with
    | zero => rfl
    | succ u =>
      exact cu_runTurns_cells w h u _ hlen (by simp [cu_initState])

/-- Witness for `c5_amended_copy_every_generation` at a 3×3 grid,
turns = 2, t = 0. -/
theorem c5_amended_witness :
    (cu_runTurns 3 3 1 (cu_initState 3 3 [1, 0, 0, 0, 0, 0, 0, 0, 0])).cells =
      cu_iter 3 3 1 [1, 0, 0, 0, 0, 0, 0, 0, 0] ∧
    cu_run 3 3 2 [1, 0, 0, 0, 0, 0, 0, 0, 0] = cu_iter 3 3 2 [1, 0, 0, 0, 0, 0, 0, 0, 0] :=
  c5_amended_copy_every_generation 3 3 2 0 _ (by decide) (by decide)

/-- Claim C8: with an argument count other than 4 (program name plus
three arguments) both programs print the usage message and exit with
status 1 without running the simulation; with 4 arguments whose three
parameters parse, the program runs the simulation and exits 0. -/
theorem c8_cli_behaviour (args : List String) :
    (args.length ≠ 4 →
      gol_main args = { usagePrinted := true, exitStatus := some 1, ranSimulation := false }) ∧
    (args.length = 4 →
      (stoi (args.getD 1 "")).isSome = true →
      (stoi (args.getD 2 "")).isSome = true →
      (stoi (args.getD 3 "")).isSome = true →
      gol_main args = { usagePrinted := false, exitStatus := some 0, ranSimulation := true }) := by
  constructor
  · intro h
    simp [gol_main, h]
  · intro h h1 h2 h3
    obtain ⟨a, ha⟩ := Option.isSome_iff_exists.mp h1
    obtain ⟨b, hb⟩ := Option.isSome_iff_exists.mp h2
    obtain ⟨c, hc⟩ := Option.isSome_iff_exists.mp h3
    unfold gol_main
    rw [if_pos h, ha, hb, hc]

/-- Witness for `c8_cli_behaviour`: a run with no arguments, and a run
with three numeric arguments. -/
theorem c8_cli_behaviour_witness :
    gol_main ["./gol-openmp"] =
      { usagePrinted := true, exitStatus := some 1, ranSimulation := false } ∧
    gol_main ["./gol-openmp", "3", "4", "2"] =
      { usagePrinted := false, exitStatus := some 0, ranSimulation := true } :=
  ⟨(c8_cli_behaviour ["./gol-openmp"]).1 (by decide),
   (c8_cli_behaviour ["./gol-openmp", "3", "4", "2"]).2 (by decide) (by decide) (by decide)
     (by decide)⟩

set_option maxRecDepth 100000 in
/-- Claim C1 fails on the code: with the deterministic `init_random`
initialisation (default-seeded `std::mt19937`), the grid H=3, W=4
after 2 turns differs between the OpenMP and the CUDA programs — the
OpenMP write index `(y * height) + x` never writes flat indices 10 and
11, so cell index 11 keeps the swapped-in stale value 1 while the CUDA
program computes 0 there. -/
theorem c1_strategies_diverge :
    initRandom (3 * 4) = [1, 0, 1, 1, 0, 1, 1, 0, 1, 0, 0, 1] ∧
    om_run 3 4 2 [1, 0, 1, 1, 0, 1, 1, 0, 1, 0, 0, 1] ≠
      cu_run 3 4 2 [1, 0, 1, 1, 0, 1, 1, 0, 1, 0, 0, 1] ∧
    buf_get (om_run 3 4 2 [1, 0, 1, 1, 0, 1, 1, 0, 1, 0, 0, 1]) 11 = 1 ∧
    buf_get (cu_run 3 4 2 [1, 0, 1, 1, 0, 1, 1, 0, 1, 0, 0, 1]) 11 = 0 :=
  ⟨by decide, by decide, by decide, by decide⟩

/-! ## Bit-invariant and frame lemmas -/

theorem allBits_set (l : List Nat) (i v : Nat) (hb : allBits l) (hv : v ≤ 1) :
    allBits (l.set i v) := by
  intro u hu
  rcases List.mem_or_eq_of_mem_set hu with h | h
  · exact hb u h
  · omega

theorem allBits_replicate (n : Nat) : allBits (List.replicate n 0) := by
  intro v hv
  rw [List.eq_of_mem_replicate hv]
  omega

theorem om_writeCell_allBits (cells : List Nat) (h w : Nat) (l : List Nat) (x y : Nat)
    (hcells : allBits cells) (hl : allBits l) : allBits (om_writeCell cells h w l x y) := by
  unfold om_writeCell
  exact allBits_set _ _ _ hl (om_rule_le_one _ _ (allBits_buf_get hcells _))

theorem om_step_allBits (cells next : List Nat) (h w : Nat)
    (hcells : allBits cells) (hn : allBits next) : allBits (om_step cells next h w) := by
  unfold om_step
  exact foldl_preserves allBits _
    (fun l y hP => foldl_preserves allBits _
      (fun l2 x h2 => om_writeCell_allBits cells h w l2 x y hcells h2) _ l hP)
    _ next hn

theorem om_step_length (cells next : List Nat) (h w : Nat) :
    (om_step cells next h w).length = next.length := by
  unfold om_step
  refine foldl_preserves (fun l => l.length = next.length)
    (fun nx y => (List.range w).foldl (fun nx2 x => om_writeCell cells h w nx2 x y) nx)
    ?_ (List.range h) next rfl
  intro nx y hP
  refine foldl_preserves (fun l2 => l2.length = next.length)
    (fun nx2 x => om_writeCell cells h w nx2 x y) ?_ (List.range w) nx hP
  intro nx2 x h2
  unfold om_writeCell
  rw [List.length_set]
  exact h2

theorem cudaRunKernel_length (n w h : Nat) (cur next : List Nat) :
    (cudaRunKernel n w h cur next).length = next.length := by
  unfold cudaRunKernel
  refine foldl_preserves (fun l => l.length = next.length)
    (fun nx i => nx.set i (cu_cell w h cur i)) ?_ (List.range n) next rfl
  intro nx i hP
  rw [List.length_set]
  exact hP

theorem cudaRunKernel_allBits (n w h : Nat) (cur next : List Nat)
    (hc : allBits cur) (hn : allBits next) : allBits (cudaRunKernel n w h cur next) := by
  unfold cudaRunKernel
  exact foldl_preserves allBits _
    (fun l i hP => allBits_set _ _ _ hP (cu_cell_le_one w h cur i hc)) _ next hn

theorem om_runTurns_allBits (h w : Nat) :
    ∀ (t : Nat) (c n : List Nat), allBits c → allBits n →
      allBits (om_runTurns h w t (c, n)).1 := by
  intro t
  induction t with
  | zero => intro c n hc _; exact hc
  | succ t ih =>
    intro c n hc hn
    exact ih (om_step c n h w) c (om_step_allBits c n h w hc hn) hc

theorem om_run_allBits (h w turns : Nat) (init : List Nat) (hb : allBits init) :
    allBits (om_run h w turns init) :=
  om_runTurns_allBits h w turns init _ hb (allBits_replicate (h * w))

theorem cu_runTurns_allBits (w h : Nat) :
    ∀ (t : Nat) (s : CudaState), allBits s.cells → allBits s.cellsDevice →
      allBits s.nextcellsDevice → allBits (cu_runTurns w h t s).cells := by
  intro t
  induction t with
  | zero => intro s hc _ _; exact hc
  | succ t ih =>
    intro s _ hd hnd
    exact ih (cu_runTurn w h s)
      (cudaRunKernel_allBits _ _ _ _ _ hd hnd)
      (cudaRunKernel_allBits _ _ _ _ _ hd hnd)
      hd

theorem cu_run_allBits (h w turns : Nat) (init : List Nat) (hb : allBits init) :
    allBits (cu_run h w turns init) :=
  cu_runTurns_allBits w h turns (cu_initState h w init) hb hb (allBits_replicate (h * w))

theorem dist01Draw_le_one (fuel : Nat) : ∀ k : Nat, (dist01Draw fuel k).1 ≤ 1 := by
  induction fuel with
  | zero =>
    intro k
    simp [dist01Draw]
  | succ f ih =>
    intro k
    show (if mtOut k < 4294967294 then (mtOut k / 2147483647, k + 1)
          else dist01Draw f (k + 1)).1 ≤ 1
    by_cases hg : mtOut k < 4294967294
    · rw [if_pos hg]
      have h2 : mtOut k / 2147483647 < 2 := by
        rw [Nat.div_lt_iff_lt_mul (by norm_num)]
        omega
      show mtOut k / 2147483647 ≤ 1
      omega
    · rw [if_neg hg]
      exact ih (k + 1)

theorem initRandom_allBits (n : Nat) : allBits (initRandom n) := by
  unfold initRandom
  refine foldl_preserves (fun s : List Nat × Nat => allBits s.1) _ ?_ (List.range n) ([], 0)
    (by intro v hv; simp at hv)
  intro s a hP
  intro v hv
  rcases List.mem_append.mp hv with h | h
  · exact hP v h
  · have hd := dist01Draw_le_one 100 s.2
    rw [List.mem_singleton.mp h]
    exact hd

theorem digitChars_bit (v : Nat) (hv : v ≤ 1) :
    digitChars v = ['0'] ∨ digitChars v = ['1'] := by
  interval_cases v
  · left; decide
  · right; decide

theorem output_lines_chars (cells : List Nat) (h w : Nat) (hb : allBits cells) :
    ∀ line ∈ output_lines cells h w, ∀ c ∈ line, c = '0' ∨ c = '1' := by
  intro line hline c hc
  rw [output_lines] at hline
  obtain ⟨y, _, rfl⟩ := List.mem_map.mp hline
  obtain ⟨sub, hsub, hcs⟩ := List.mem_flatten.mp hc
  obtain ⟨x, _, rfl⟩ := List.mem_map.mp hsub
  rcases digitChars_bit _ (allBits_buf_get hb (y * w + x)) with hd | hd
  · rw [hd] at hcs
    left
    exact List.mem_singleton.mp hcs
  · rw [hd] at hcs
    right
    exact List.mem_singleton.mp hcs

/-! ## Claim theorems (second group) -/

/-- Claim C6: one step of the update never mutates the current buffer —
in both strategies the generation state after the update loop still
holds `cells` unchanged (only the next buffer was assigned, its length
preserved). -/
theorem c6_step_preserves_current (height width : Nat) (cells next : List Nat) :
    (om_generationState height width (cells, next)).1 = cells ∧
    (om_step cells next height width).length = next.length ∧
    (cu_generationState width height (cells, next)).1 = cells ∧
    (cudaRunKernel (height * width) width height cells next).length = next.length :=
  ⟨rfl, om_step_length cells next height width, rfl,
    cudaRunKernel_length (height * width) width height cells next⟩

/-- Claim C9: every grid reachable from the random initialiser holds only
cell values 0 or 1, in both strategies, and consequently every grid
character of the output file is '0' or '1'. -/
theorem c9_cells_binary (h w turns : Nat) :
    allBits (om_run h w turns (initRandom (h * w))) ∧
    allBits (cu_run h w turns (initRandom (h * w))) ∧
    (∀ line ∈ output_lines (om_run h w turns (initRandom (h * w))) h w,
      ∀ c ∈ line, c = '0' ∨ c = '1') ∧
    (∀ line ∈ output_lines (cu_run h w turns (initRandom (h * w))) h w,
      ∀ c ∈ line, c = '0' ∨ c = '1') := by
  have hinit := initRandom_allBits (h * w)
  have h1 := om_run_allBits h w turns _ hinit
  have h2 := cu_run_allBits h w turns _ hinit
  exact ⟨h1, h2, output_lines_chars _ h w h1, output_lines_chars _ h w h2⟩

/-- Claim C10: on every square grid (H = W = h ≥ 1, with the index
arithmetic below the 32-bit wrap) holding bit values, one OpenMP
generation step equals one CUDA kernel generation step, and whole runs
of any number of turns coincide. -/
theorem c10_square_strategies_agree (h turns : Nat) (cur next init : List Nat)
    (h1 : 1 ≤ h) (hU : h * h < U32) (hn : next.length = h * h) (hb : allBits cur)
    (hi : init.length = h * h) (hbi : allBits init) :
    om_step cur next h h = cu_step h h cur ∧
    om_run h h turns init = cu_run h h turns init := by
  refine ⟨om_step_eq_cu_step h cur next h1 hU hn hb, ?_⟩
  rw [cu_run_eq_iter h h turns init hi]
  unfold om_run
  exact om_runTurns_sq h h1 hU turns init _ hbi hi (by simp)

/-- Witness for `c10_square_strategies_agree` on a 3×3 grid (vertical
blinker column) and one turn. -/
theorem c10_square_strategies_agree_witness :
    om_step [0, 1, 0, 0, 1, 0, 0, 1, 0] [0, 0, 0, 0, 0, 0, 0, 0, 0] 3 3 =
      cu_step 3 3 [0, 1, 0, 0, 1, 0, 0, 1, 0] ∧
    om_run 3 3 1 [0, 1, 0, 0, 1, 0, 0, 1, 0] = cu_run 3 3 1 [0, 1, 0, 0, 1, 0, 0, 1, 0] :=
  c10_square_strategies_agree 3 1 [0, 1, 0, 0, 1, 0, 0, 1, 0] [0, 0, 0, 0, 0, 0, 0, 0, 0]
    [0, 1, 0, 0, 1, 0, 0, 1, 0] (by decide) (by decide) (by decide)
    (by unfold allBits; decide) (by decide) (by unfold allBits; decide)

end GoL
